import Mathlib

/-!
A shallow embedding of the material-catalog importer (source files
`price_importer.py` and `database_manager.py`).  Text is modelled as
`List Char`; SQL TEXT comparison (`price_date <= ?`) is lexicographic
codepoint order, matching SQLite memcmp on the ASCII date strings used
by the program.  Database tables are Lean lists in insertion (rowid)
order; queries without ORDER BY yield rows in table order.
-/

abbrev Str := List Char

/-- Python regex `\s` on the ASCII range (the inputs the program handles). -/
def pySpace (c : Char) : Bool :=
  c = ' ' || c = '\t' || c = '\n' || c = '\r' || c = '\x0b' || c = '\x0c'

/-- Codepoint order on characters, as memcmp/Python use on these alphabets. -/
def charLt (a b : Char) : Bool := a.toNat < b.toNat

/-- Strict lexicographic order on strings (SQLite TEXT comparison). -/
def lexLtB : Str → Str → Bool
  | [], [] => false
  | [], _ :: _ => true
  | _ :: _, [] => false
  | a :: as, b :: bs => charLt a b || (a = b && lexLtB as bs)

/-- Non-strict lexicographic order on strings. -/
def lexLeB (s t : Str) : Bool := lexLtB s t || s = t

/-- The uppercase/lowercase pairs of Python `str.lower` on the alphabets the
program's patterns use: ASCII A-Z and Cyrillic А-Я, Ё. -/
def lowerPairs : List (Char × Char) :=
  [('A', 'a'), ('B', 'b'), ('C', 'c'), ('D', 'd'), ('E', 'e'), ('F', 'f'),
   ('G', 'g'), ('H', 'h'), ('I', 'i'), ('J', 'j'), ('K', 'k'), ('L', 'l'),
   ('M', 'm'), ('N', 'n'), ('O', 'o'), ('P', 'p'), ('Q', 'q'), ('R', 'r'),
   ('S', 's'), ('T', 't'), ('U', 'u'), ('V', 'v'), ('W', 'w'), ('X', 'x'),
   ('Y', 'y'), ('Z', 'z'),
   ('А', 'а'), ('Б', 'б'), ('В', 'в'), ('Г', 'г'), ('Д', 'д'), ('Е', 'е'),
   ('Ж', 'ж'), ('З', 'з'), ('И', 'и'), ('Й', 'й'), ('К', 'к'), ('Л', 'л'),
   ('М', 'м'), ('Н', 'н'), ('О', 'о'), ('П', 'п'), ('Р', 'р'), ('С', 'с'),
   ('Т', 'т'), ('У', 'у'), ('Ф', 'ф'), ('Х', 'х'), ('Ц', 'ц'), ('Ч', 'ч'),
   ('Ш', 'ш'), ('Щ', 'щ'), ('Ъ', 'ъ'), ('Ы', 'ы'), ('Ь', 'ь'), ('Э', 'э'),
   ('Ю', 'ю'), ('Я', 'я'), ('Ё', 'ё')]

/-- Python `str.lower` restricted to the alphabets above; other characters
are left unchanged. -/
def pyToLower (c : Char) : Char :=
  ((lowerPairs.find? (fun p => p.1 = c)).map Prod.snd).getD c

/-- Remove a trailing run of whitespace characters. -/
def dropTrailWs : Str → Str
  | [] => []
  | c :: rest =>
    if dropTrailWs rest = [] && pySpace c then [] else c :: dropTrailWs rest

/-- Python `str.strip()`: remove leading and trailing whitespace. -/
def stripStr (s : Str) : Str := dropTrailWs (s.dropWhile pySpace)

/-- Python `re.sub(r"\s+", " ", s)`: each maximal whitespace run becomes a
single space. -/
def collapseWs : Str → Str
  | [] => []
  | [c] => if pySpace c then [' '] else [c]
  | a :: b :: rest =>
    if pySpace a && pySpace b then collapseWs (b :: rest)
    else (if pySpace a then ' ' else a) :: collapseWs (b :: rest)

/-- The alternatives of the regex `^(товар|материал|продукт)\s*` in
`_clean_material_name` (line 236 of `price_importer.py`). -/
def genericHeads : List Str :=
  ["товар".data, "материал".data, "продукт".data]

/-- The alternatives of the regex `\s*(упаковка|штука|кг|м|м²|м³)$` in
`_clean_material_name` (line 237 of `price_importer.py`). -/
def unitTails : List Str :=
  ["упаковка".data, "штука".data, "кг".data, "м".data, "м²".data, "м³".data]

/-- `re.sub(r"^(товар|материал|продукт)\s*", "", s)`: the pattern is anchored
at the start, so it fires at most once, removing the matched alternative and
the greedy run of whitespace after it.  No alternative is a prefix of
another, so first-match order over the list is the regex behaviour. -/
def stripHead (s : Str) : Str :=
  match genericHeads.find? (fun p => decide (s.take p.length = p)) with
  | some p => (s.drop p.length).dropWhile pySpace
  | none => s

/-- `re.sub(r"\s*(упаковка|штука|кг|м|м²|м³)$", "", s)`: the pattern is
anchored at the end, so a match removes one alternative occurring as the
final characters of `s` together with the whitespace run just before it
(leftmost match makes `\s*` take the whole run).  No alternative is a
suffix of another, so at most one can match. -/
def stripTail (s : Str) : Str :=
  match unitTails.find? (fun w => decide (s.drop (s.length - w.length) = w)) with
  | some w => dropTrailWs (s.take (s.length - w.length))
  | none => s

/-- `PriceImporter._clean_material_name` (`price_importer.py` 227-239):
empty input short-circuits to the empty string; otherwise strip, lowercase,
collapse whitespace, remove a generic-noun head and a unit-like tail. -/
def clean_material_name (s : Str) : Str :=
  if s = [] then []
  else stripTail (stripHead (collapseWs ((stripStr s).map pyToLower)))

/-! ## Data model

One structure per table of the database (`database_manager.py`); lists hold
rows in insertion order.  Store-assigned ids (`lastrowid`) are modelled as
`tableLength + 1`, matching SQLite AUTOINCREMENT starting from 1.  Prices
are integers: the claims under study never divide or round, so the
`float` column is embedded at integer values. -/

structure Material where
  id : Str
  name_canonical : Str
  unit : Str
  active : Bool
deriving DecidableEq

structure MaterialAlias where
  material_id : Str
  alias_name : Str
  customer_id : Option Nat
deriving DecidableEq

structure Customer where
  id : Nat
  preferred_price_source_type : Str
deriving DecidableEq

structure PriceSource where
  id : Nat
  type_ : Str
  name : Str
  customer_id : Option Nat
  vendor_id : Option Nat
  doc_date : Option Str
deriving DecidableEq

structure MaterialPrice where
  material_id : Str
  price : Option Int
  price_date : Str
  source_id : Nat
  is_active : Bool
deriving DecidableEq

structure ImportSession where
  id : Nat
  source_file : Str
  customer_id : Option Nat
  vendor_id : Option Nat
  status : Str
  processed_rows : Option Nat
  error_rows : Option Nat
deriving DecidableEq

structure UnmatchedImport where
  import_session_id : Nat
  raw_name : Str
  raw_price : Option Int
  raw_unit : Option Str
  raw_article : Option Str
  resolution_status : Str
deriving DecidableEq

structure DB where
  materials : List Material
  material_aliases : List MaterialAlias
  customers : List Customer
  price_sources : List PriceSource
  material_prices : List MaterialPrice
  import_sessions : List ImportSession
  unmatched_imports : List UnmatchedImport
deriving DecidableEq

/-! ## Database manager operations (`database_manager.py`) -/

/-- `DatabaseManager.get_material_by_name` (lines 154-162): the first row
with `name_canonical = name AND unit = unit AND active = 1`. -/
def get_material_by_name (db : DB) (name unit : Str) : Option Material :=
  db.materials.find? (fun m => m.name_canonical = name && m.unit = unit && m.active)

/-- A row of the `materials JOIN material_aliases` projection that
`find_material_by_alias` returns. -/
structure AliasJoinRow where
  material : Material
  alias_name : Str
deriving DecidableEq

/-- Whether an alias row passes the scope filter of the query in
`find_material_by_alias`: with a truthy `customer_id` (Python `if
customer_id:` — a customer id that is present and nonzero) the SQL keeps
rows with `ma.customer_id = ? OR ma.customer_id IS NULL`; otherwise the
query has no scope condition at all. -/
def aliasScopeOk (customer_id : Option Nat) (ma : MaterialAlias) : Bool :=
  match customer_id with
  | some cid =>
    if cid ≠ 0 then ma.customer_id = some cid || ma.customer_id = none else true
  | none => true

/-- `DatabaseManager.find_material_by_alias` (lines 164-183): all join rows
with `alias_name = ?`, the scope condition above, and `m.active = 1`, in
store order (the query has no ORDER BY; rows are modelled alias-table
major). -/
def find_material_by_alias (db : DB) (aliasText : Str) (customer_id : Option Nat) :
    List AliasJoinRow :=
  (db.material_aliases.filter
      (fun ma => ma.alias_name = aliasText && aliasScopeOk customer_id ma)).flatMap
    (fun ma =>
      (db.materials.filter (fun m => m.id = ma.material_id && m.active)).map
        (fun m => ⟨m, ma.alias_name⟩))

/-- `DatabaseManager.add_price_source` (lines 186-193). -/
def add_price_source (db : DB) (type_ name : Str) (customer_id vendor_id : Option Nat)
    (doc_date : Option Str) : Nat × DB :=
  let sid := db.price_sources.length + 1
  (sid, { db with price_sources :=
    db.price_sources ++ [⟨sid, type_, name, customer_id, vendor_id, doc_date⟩] })

/-- `DatabaseManager.add_material_price` (lines 195-203), for a price value
accepted by the store.  Rows are inserted with `is_active = 1`. -/
def add_material_price (db : DB) (material_id : Str) (price : Int)
    (price_date : Str) (source_id : Nat) : DB :=
  { db with material_prices :=
    db.material_prices ++ [⟨material_id, some price, price_date, source_id, true⟩] }

/-- `DatabaseManager.create_import_session` (lines 244-251).  Modelled from
the spec: `database_schema.sql` is not among the source files; per the spec
an Import Session starts in status `pending` with empty row counters. -/
def create_import_session (db : DB) (source_file : Str)
    (customer_id vendor_id : Option Nat) : Nat × DB :=
  let sid := db.import_sessions.length + 1
  (sid, { db with import_sessions :=
    db.import_sessions ++
      [⟨sid, source_file, customer_id, vendor_id, "pending".data, none, none⟩] })

/-- `DatabaseManager.update_import_session` (lines 253-272): set the status,
and the row counters only when given. -/
def update_import_session (db : DB) (session_id : Nat) (status : Str)
    (processed_rows error_rows : Option Nat) : DB :=
  { db with import_sessions := db.import_sessions.map (fun s =>
      if s.id = session_id then
        { s with
          status := status
          processed_rows := processed_rows.elim s.processed_rows some
          error_rows := error_rows.elim s.error_rows some }
      else s) }

/-- `DatabaseManager.add_unmatched_import` (lines 274-283).  Modelled from
the spec: the schema file is absent; per the spec the resolution status
starts as `pending`. -/
def add_unmatched_import (db : DB) (session_id : Nat) (raw_name : Str)
    (raw_price : Option Int) (raw_unit raw_article : Option Str) : DB :=
  { db with unmatched_imports :=
    db.unmatched_imports ++
      [⟨session_id, raw_name, raw_price, raw_unit, raw_article, "pending".data⟩] }

/-- The price row joined with its source, as produced by the query in
`get_current_price`. -/
structure JoinedPrice where
  row : MaterialPrice
  ps_type : Str
  source_customer_id : Option Nat
deriving DecidableEq

/-- The `CASE ps.type WHEN preferred THEN 1 WHEN 'invoice' THEN 2 WHEN
'website' THEN 3 WHEN 'manual' THEN 4 ELSE 5 END` ranking of
`get_current_price` (lines 228-234); SQL CASE takes the first matching
branch. -/
def sourceRank (preferred t : Str) : Nat :=
  if t = preferred then 1
  else if t = ("invoice".data) then 2
  else if t = ("website".data) then 3
  else if t = ("manual".data) then 4
  else 5

/-- The strict two-level ordering of `get_current_price`: lower source rank
first, then more recent `price_date`. -/
def betterPrice (preferred : Str) (a b : JoinedPrice) : Bool :=
  sourceRank preferred a.ps_type < sourceRank preferred b.ps_type ||
    (sourceRank preferred a.ps_type = sourceRank preferred b.ps_type &&
      lexLtB b.row.price_date a.row.price_date)

/-- The candidate rows of `get_current_price`'s query (lines 222-237):
`material_prices JOIN price_sources` restricted to the material, to
`price_date <= calculation_date` and to `is_active = 1`. -/
def priceCandidates (db : DB) (material_id : Str) (asOf : Str) : List JoinedPrice :=
  db.material_prices.flatMap (fun mp =>
    if mp.material_id = material_id && mp.is_active && lexLeB mp.price_date asOf then
      (db.price_sources.filter (fun ps => ps.id = mp.source_id)).map
        (fun ps => ⟨mp, ps.type_, ps.customer_id⟩)
    else [])

/-- One comparison step of the selection: keep the incumbent unless the new
row is strictly better under the two-level key. -/
def pickStep (preferred : Str) (acc : Option JoinedPrice) (r : JoinedPrice) :
    Option JoinedPrice :=
  match acc with
  | none => some r
  | some b => if betterPrice preferred r b then some r else some b

/-- `ORDER BY ... LIMIT 1`: a row that no other candidate strictly precedes
under the two-level key. -/
def pickBest (preferred : Str) (l : List JoinedPrice) : Option JoinedPrice :=
  l.foldl (pickStep preferred) none

/-- The `preferred_type` determination of `get_current_price` (lines
212-219): default `invoice`; with a truthy customer id, the customer's
`preferred_price_source_type` when such a customer row exists. -/
def lookupPreferredType (db : DB) (customer_id : Option Nat) : Str :=
  match customer_id with
  | some cid =>
    if cid ≠ 0 then
      match db.customers.find? (fun c => c.id = cid) with
      | some c => c.preferred_price_source_type
      | none => "invoice".data
    else "invoice".data
  | none => "invoice".data

/-- `DatabaseManager.get_current_price` (lines 205-241): the calculation
date defaults to today; the best candidate under the two-level key is
returned, `none` when there is no candidate. -/
def get_current_price (db : DB) (material_id : Str) (calculation_date : Option Str)
    (customer_id : Option Nat) (today : Str) : Option JoinedPrice :=
  let asOf := calculation_date.getD today
  pickBest (lookupPreferredType db customer_id) (priceCandidates db material_id asOf)

/-! ## Column detection (`price_importer.py` 138-175) -/

/-- `re.search` with a plain pattern: the pattern occurs as a contiguous
substring. -/
def containsSub (p s : Str) : Bool :=
  (List.range (s.length + 1)).any (fun i => (s.drop i).take p.length = p)

/-- The regex `ед\.?\s*изм` matching at the head of `s`: literal `ед`, an
optional dot, a whitespace run, then literal `изм`. -/
def edIzmAt (s : Str) : Bool :=
  if s.take 2 = ("ед".data) then
    let r := s.drop 2
    let r := if r.take 1 = ['.'] then r.drop 1 else r
    (r.dropWhile pySpace).take 3 = ("изм".data)
  else false

/-- `re.search(r"ед\.?\s*изм", s)`: the pattern matches at some position. -/
def containsEdIzm (s : Str) : Bool :=
  (List.range (s.length + 1)).any (fun i => edIzmAt (s.drop i))

/-- `name_patterns` (lines 143-146). -/
def namePats : List Str :=
  ["наименован".data, "материал".data, "товар".data, "продукт".data,
   "name".data, "material".data, "product".data, "item".data]

/-- `price_patterns` (lines 149-151). -/
def pricePats : List Str :=
  ["цена".data, "стоимость".data, "price".data, "cost".data]

/-- `unit_patterns` (lines 154-156) apart from the regex `ед\.?\s*изм`,
which `containsEdIzm` handles. -/
def unitPats : List Str := ["единица".data, "unit".data]

/-- `article_patterns` (lines 159-161). -/
def articlePats : List Str :=
  ["артикул".data, "код".data, "article".data, "code".data, "sku".data]

inductive ColField where
  | nameF
  | priceF
  | unitF
  | articleF
deriving DecidableEq

/-- The `if`/`elif` chain of `_detect_columns` (lines 166-173) on one
lowercased, trimmed header: the first logical field, in the order name,
price, unit, article, whose pattern set matches. -/
def classifyColumn (col : Str) : Option ColField :=
  let l := stripStr (col.map pyToLower)
  if namePats.any (fun p => containsSub p l) then some ColField.nameF
  else if pricePats.any (fun p => containsSub p l) then some ColField.priceF
  else if containsEdIzm l || unitPats.any (fun p => containsSub p l) then
    some ColField.unitF
  else if articlePats.any (fun p => containsSub p l) then some ColField.articleF
  else none

/-- The `mapping` dictionary of `_detect_columns`, one optional physical
column per logical field. -/
structure ColumnMapping where
  name : Option Str
  price : Option Str
  unit : Option Str
  article : Option Str
deriving DecidableEq

/-- One step of the detection loop: `mapping[field] = col` — an assignment,
so a later column replaces an earlier one mapped to the same field. -/
def assignColumn (m : ColumnMapping) (col : Str) : ColumnMapping :=
  match classifyColumn col with
  | some ColField.nameF => { m with name := some col }
  | some ColField.priceF => { m with price := some col }
  | some ColField.unitF => { m with unit := some col }
  | some ColField.articleF => { m with article := some col }
  | none => m

/-- `PriceImporter._detect_columns` (lines 138-175). -/
def detect_columns (cols : List Str) : ColumnMapping :=
  cols.foldl assignColumn ⟨none, none, none, none⟩

/-! ## Row extraction (`price_importer.py` 177-200) -/

/-- A spreadsheet cell: missing (`NaN`), text, or a numeric value.  Numeric
cells are embedded at integer values; the claims under study never depend
on fractional prices. -/
inductive CellValue where
  | null
  | str (s : Str)
  | num (n : Int)
deriving DecidableEq

/-- Python `str(n)` for an integer value. -/
def intChars (n : Int) : Str :=
  if n < 0 then '-' :: Nat.toDigits 10 n.natAbs else Nat.toDigits 10 n.natAbs

/-- Python `float(s)` restricted to integer literals: optional sign and
digits, surrounding whitespace allowed; anything else fails. -/
def parseIntChars (s : Str) : Option Int :=
  let t := stripStr s
  let neg := t.take 1 = ['-']
  let d := if t.take 1 = ['-'] || t.take 1 = ['+'] then t.drop 1 else t
  if d ≠ [] && d.all (fun c => c.isDigit) then
    let n : Nat := d.foldl (fun acc c => acc * 10 + (c.toNat - 48)) 0
    some (if neg then -(n : Int) else (n : Int))
  else none

/-- A data row: cell values keyed by column header. -/
abbrev Row := List (Str × CellValue)

/-- `safe_get` (lines 179-183): `str(value).strip()` when the column is
mapped and the cell is not NaN, else `None`. -/
def safe_get (row : Row) (entry : Option Str) : Option Str :=
  match entry with
  | none => none
  | some col =>
    match (row.find? (fun p => p.1 = col)).map Prod.snd with
    | some (CellValue.str s) => some (stripStr s)
    | some (CellValue.num n) => some (intChars n)
    | _ => none

/-- `safe_get_numeric` (lines 185-193): `float(value)` when the column is
mapped and the cell is not NaN; an unparseable value yields `None` rather
than an error. -/
def safe_get_numeric (row : Row) (entry : Option Str) : Option Int :=
  match entry with
  | none => none
  | some col =>
    match (row.find? (fun p => p.1 = col)).map Prod.snd with
    | some (CellValue.num n) => some n
    | some (CellValue.str s) => parseIntChars s
    | _ => none

/-- The dictionary `_extract_material_data` returns (lines 195-200). -/
structure RowData where
  name : Option Str
  price : Option Int
  unit : Option Str
  article : Option Str
deriving DecidableEq

/-- `PriceImporter._extract_material_data` (lines 177-200). -/
def extract_material_data (row : Row) (mapping : ColumnMapping) : RowData :=
  ⟨safe_get row mapping.name, safe_get_numeric row mapping.price,
   safe_get row mapping.unit, safe_get row mapping.article⟩

/-! ## Material matching (`price_importer.py` 202-248) -/

/-- `PriceImporter._match_material` (lines 202-225): empty name short-
circuits to no match; with a truthy unit, an exact (cleaned name, unit)
catalog lookup wins; otherwise the first alias join row; the article
argument is accepted but unused. -/
def match_material (db : DB) (name : Str) (unit _article : Option Str)
    (customer_id : Option Nat) : Option Material :=
  if name = [] then none
  else
    let clean := clean_material_name name
    let exact : Option Material :=
      match unit with
      | some u => if u ≠ [] then get_material_by_name db clean u else none
      | none => none
    match exact with
    | some m => some m
    | none =>
      ((find_material_by_alias db clean customer_id).head?).map AliasJoinRow.material

/-- `PriceImporter._add_alias_if_not_exists` (lines 241-248): the source
queries existing aliases for the raw text and then reaches
`pass  # Placeholder` — nothing is ever written; the store is returned
unchanged. -/
def add_alias_if_not_exists (db : DB) (material_id : Str) (aliasText : Str)
    (customer_id : Option Nat) : DB :=
  let existing := find_material_by_alias db aliasText customer_id
  let _ := existing
  let _ := material_id
  db

/-! ## Import orchestration (`price_importer.py` 13-136) -/

/-- The running state of `_process_dataframe`: the counters and unmatched
list of the loop, plus the store. -/
structure ProcState where
  processed : Nat
  errors : Nat
  unmatched : List RowData
  db : DB
deriving DecidableEq

/-- One iteration of the row loop of `_process_dataframe` (lines 81-130).
A missing or empty name counts an error.  On a match with a present price,
the price row is inserted and the row counts as processed; when the raw
name differs from the canonical name the (placeholder) alias registration
runs.  On a match with a null price the insert fails — modelled from the
spec: `database_schema.sql` is not among the source files and the spec
calls the price column numeric and counts an unparseable price as a row
error, so the store rejects a null price and the per-row handler catches
it as an error.  On no match, an unmatched record is inserted, the raw row
is appended to `unmatched`, and the error counter is incremented (line
126). -/
def process_row (mapping : ColumnMapping) (source_id session_id : Nat)
    (customer_id : Option Nat) (today : Str) (st : ProcState) (row : Row) :
    ProcState :=
  let d := extract_material_data row mapping
  match d.name with
  | none => { st with errors := st.errors + 1 }
  | some n =>
    if n = [] then { st with errors := st.errors + 1 }
    else
      match match_material st.db n d.unit d.article customer_id with
      | some m =>
        match d.price with
        | some p =>
          let db1 := add_material_price st.db m.id p today source_id
          let db2 :=
            if n ≠ m.name_canonical then add_alias_if_not_exists db1 m.id n customer_id
            else db1
          { st with processed := st.processed + 1, db := db2 }
        | none => { st with errors := st.errors + 1 }
      | none =>
        { st with
          errors := st.errors + 1
          unmatched := st.unmatched ++ [d]
          db := add_unmatched_import st.db session_id n d.price d.unit d.article }

/-- `PriceImporter._process_dataframe` (lines 71-136). -/
def process_dataframe (db : DB) (mapping : ColumnMapping) (rows : List Row)
    (source_id session_id : Nat) (customer_id : Option Nat) (today : Str) :
    ProcState :=
  rows.foldl (process_row mapping source_id session_id customer_id today)
    ⟨0, 0, [], db⟩

/-- The batch-level failures of `import_from_file`. -/
inductive ImportErr where
  | fileNotFound
  | readFailed
deriving DecidableEq

/-- The result dictionary of `import_from_file` (lines 58-65). -/
structure ImportResult where
  session_id : Nat
  total_rows : Nat
  processed : Nat
  errors : Nat
  unmatched : List RowData
  price_source_id : Nat
deriving DecidableEq

/-- `PriceImporter.import_from_file` (lines 13-69).  The filesystem is
modelled by `file_exists` and by `content`: `none` means reading the file
raises, `some (headers, rows)` is the parsed table.  A missing file raises
`FileNotFoundError` before any session exists; a failure after session
creation marks the session `failed` and propagates.  The price source name
is abstracted to the file path (the display-string formatting of lines
35-37 plays no part in any claim). -/
def import_from_file (file_exists : Bool) (file_path : Str)
    (content : Option (List Str × List Row)) (db : DB) (today : Str)
    (customer_id vendor_id : Option Nat) (doc_date : Option Str) :
    Except ImportErr ImportResult × DB :=
  if file_exists = false then (Except.error ImportErr.fileNotFound, db)
  else
    let sdb := create_import_session db file_path customer_id vendor_id
    match content with
    | none =>
      (Except.error ImportErr.readFailed,
        update_import_session sdb.2 sdb.1 ("failed".data) none none)
    | some (headers, rows) =>
      let pdb := add_price_source sdb.2 ("invoice".data) file_path customer_id
        vendor_id (some (doc_date.getD today))
      let mapping := detect_columns headers
      let res := process_dataframe pdb.2 mapping rows pdb.1 sdb.1 customer_id today
      let db4 := update_import_session res.db sdb.1 ("completed".data)
        (some res.processed) (some res.errors)
      (Except.ok ⟨sdb.1, rows.length, res.processed, res.errors, res.unmatched, pdb.1⟩,
        db4)

/-! ## Concrete stores used by the claim theorems -/

/-- An active material «цемент», unit «кг». -/
def exM1 : Material := ⟨"m1".data, "цемент".data, "кг".data, true⟩

/-- An active material «песок», unit «кг». -/
def exM2 : Material := ⟨"m2".data, "песок".data, "кг".data, true⟩

/-- The store of the spec's price-selection example: two invoice prices and
a manual price for material `m1`. -/
def exDb1 : DB := ⟨[], [], [],
  [⟨1, "invoice".data, "s1".data, none, none, none⟩,
   ⟨2, "manual".data, "s2".data, none, none, none⟩],
  [⟨"m1".data, some 100, "2024-01-01".data, 1, true⟩,
   ⟨"m1".data, some 110, "2024-03-01".data, 1, true⟩,
   ⟨"m1".data, some 90, "2024-02-01".data, 2, true⟩],
  [], []⟩

/-- The joined row that the price-selection example returns. -/
def exJ1 : JoinedPrice :=
  ⟨⟨"m1".data, some 110, "2024-03-01".data, 1, true⟩, "invoice".data, none⟩

/-- A store where «цемент»/«кг» both matches `exM1` exactly and is an alias
of `exM2`. -/
def exDb2 : DB := ⟨[exM1, exM2], [⟨"m2".data, "цемент".data, none⟩], [], [], [], [], []⟩

/-- A store whose alias table holds a global alias «смесь» → `m2` before a
customer-1-scoped alias «смесь» → `m1`. -/
def exDb4 : DB := ⟨[exM1, exM2],
  [⟨"m2".data, "смесь".data, none⟩, ⟨"m1".data, "смесь".data, some 1⟩],
  [], [], [], [], []⟩

/-- A store with a single customer-1-scoped alias «щебень» → `m1`. -/
def exDb5A : DB := ⟨[exM1], [⟨"m1".data, "щебень".data, some 1⟩], [], [], [], [], []⟩

/-- `exDb5A` with the customer-1-scoped alias removed. -/
def exDb5B : DB := ⟨[exM1], [], [], [], [], [], []⟩

/-- The header row of the spec's column-detection example. -/
def exHeaders : List Str :=
  ["Материал".data, "Единица измерения".data, "Цена материала, за единицу".data]

/-- An empty store: every lookup misses. -/
def exDb7 : DB := ⟨[], [], [], [], [], [], []⟩

/-- A mapping with name and price columns. -/
def exMapping7 : ColumnMapping := ⟨some ("Наименование".data), some ("Цена".data), none, none⟩

/-- A data row whose name resolves to nothing in `exDb7`. -/
def exRow7 : Row :=
  [("Наименование".data, CellValue.str ("неизвестно".data)),
   ("Цена".data, CellValue.num 50)]

/-- An active material «цемент м500», unit «шт». -/
def exM8 : Material := ⟨"m1".data, "цемент м500".data, "шт".data, true⟩

/-- A store holding only `exM8`. -/
def exDb8 : DB := ⟨[exM8], [], [], [], [], [], []⟩

/-- A mapping with name, price and unit columns. -/
def exMapping8 : ColumnMapping :=
  ⟨some ("Наименование".data), some ("Цена".data), some ("Ед. изм.".data), none⟩

/-- A row naming «Цемент М500»/«шт» with the given price cell: it resolves
to `exM8` by exact match. -/
def exRow8 (price : CellValue) : Row :=
  [("Наименование".data, CellValue.str ("Цемент М500".data)),
   ("Ед. изм.".data, CellValue.str ("шт".data)),
   ("Цена".data, price)]

/-- Ten resolvable rows; the fifth price cell is the unparseable text
`n/a`. -/
def exRows8 : List Row :=
  [exRow8 (CellValue.num 100), exRow8 (CellValue.num 101), exRow8 (CellValue.num 102),
   exRow8 (CellValue.num 103), exRow8 (CellValue.str ("n/a".data)),
   exRow8 (CellValue.num 105), exRow8 (CellValue.num 106), exRow8 (CellValue.num 107),
   exRow8 (CellValue.num 108), exRow8 (CellValue.num 109)]

/-- A store holding only `exM1` and no aliases. -/
def exDb9 : DB := ⟨[exM1], [], [], [], [], [], []⟩

/-- A row whose raw name «Товар Цемент» differs from the canonical name of
the material it resolves to. -/
def exRow9 : Row :=
  [("Наименование".data, CellValue.str ("Товар Цемент".data)),
   ("Ед. изм.".data, CellValue.str ("кг".data)),
   ("Цена".data, CellValue.num 100)]

/-! ## Shape predicates for the normalization proofs -/

/-- The first character, if any, is not whitespace. -/
def noLeadWs : Str → Bool
  | [] => true
  | c :: _ => !pySpace c

/-- The last character, if any, is not whitespace. -/
def noTrailWs : Str → Bool
  | [] => true
  | [c] => !pySpace c
  | _ :: b :: rest => noTrailWs (b :: rest)

/-- No two adjacent characters are both whitespace. -/
def noDoubleWs : Str → Bool
  | [] => true
  | [_] => true
  | a :: b :: rest => !(pySpace a && pySpace b) && noDoubleWs (b :: rest)

/-! ## Claim theorems -/

set_option maxRecDepth 16384

/-- C10: a nonexistent input file raises `FileNotFoundError` before any
session row is created: the store comes back unchanged, so no session
row is inserted and in particular none is marked `failed` — the
session-marked-failed path only applies to failures after the session
exists. -/
theorem C10_no_session_for_missing_file :
    ∀ (file_path : Str) (content : Option (List Str × List Row)) (db : DB)
      (today : Str) (customer_id vendor_id : Option Nat) (doc_date : Option Str),
      import_from_file false file_path content db today customer_id vendor_id
          doc_date =
        (Except.error ImportErr.fileNotFound, db) := by
  intro fp c db t cu v dd
  simp [import_from_file]

/-- C2: with a nonempty raw name and a nonempty unit supplied, an active
material matching the cleaned name exactly and the unit verbatim is
returned directly, and the alias table is never consulted: the result is
the same under every replacement of the alias table, so an exact match
beats any alias match for the same input. -/
theorem C2_exact_match_short_circuit :
    ∀ (db : DB) (name u : Str) (article : Option Str) (cust : Option Nat)
      (m : Material),
      name ≠ [] → u ≠ [] →
      get_material_by_name db (clean_material_name name) u = some m →
      match_material db name (some u) article cust = some m ∧
      (∀ al : List MaterialAlias,
        match_material { db with material_aliases := al } name (some u) article
          cust = some m) := by
  intro db name u article cust m hn hu hget
  refine ⟨?_, fun al => ?_⟩
  · simp [match_material, hn, hu, hget]
  · have hget2 : get_material_by_name { db with material_aliases := al }
        (clean_material_name name) u = some m := hget
    simp [match_material, hn, hu, hget2]

/-- C2 witness: in `exDb2` the input «Цемент»/«кг» has both an exact match
(`exM1`) and a global alias match (to `m2`); the resolver returns the exact
match. -/
theorem C2_exact_match_witness :
    match_material exDb2 ("Цемент".data) (some ("кг".data)) none none = some exM1 ∧
    match_material { exDb2 with material_aliases := [] } ("Цемент".data)
      (some ("кг".data)) none none = some exM1 :=
  ⟨(C2_exact_match_short_circuit exDb2 ("Цемент".data) ("кг".data) none none exM1
      (by decide) (by decide) (by decide)).1,
   (C2_exact_match_short_circuit exDb2 ("Цемент".data) ("кг".data) none none exM1
      (by decide) (by decide) (by decide)).2 []⟩

/-- C4 counterexample: in `exDb4` the name «смесь» (already normalized) is
matched both by a customer-1-scoped alias to `m1` and by a global alias to
`m2` that sits earlier in the alias table; the resolver called with
customer 1 returns `m2` — the global match, not the customer-scoped one. -/
theorem C4_counterexample :
    (⟨"m1".data, "смесь".data, some 1⟩ : MaterialAlias) ∈ exDb4.material_aliases ∧
    (⟨"m2".data, "смесь".data, none⟩ : MaterialAlias) ∈ exDb4.material_aliases ∧
    exM1 ∈ exDb4.materials ∧ exM1.id = "m1".data ∧ exM1.active = true ∧
    exM2 ∈ exDb4.materials ∧ exM2.id = "m2".data ∧ exM2.active = true ∧
    clean_material_name ("смесь".data) = "смесь".data ∧
    (match_material exDb4 ("смесь".data) none none (some 1)).map Material.id =
      some ("m2".data) := by decide

/-- C4 amended: alias lookup applies no precedence between customer-scoped
and global aliases — both are valid matches and the resolver returns the
material of whichever matching alias row the store yields first (alias
table order). -/
theorem C4_store_order_decides :
    ∀ (db : DB) (name : Str) (cid : Nat) (ma : MaterialAlias)
      (rest : List MaterialAlias) (m : Material) (ms : List Material),
      name ≠ [] →
      db.material_aliases.filter
          (fun x => x.alias_name = clean_material_name name &&
            aliasScopeOk (some cid) x) = ma :: rest →
      db.materials.filter (fun x => x.id = ma.material_id && x.active) = m :: ms →
      match_material db name none none (some cid) = some m := by
  intro db name cid ma rest m ms hn hfa hfm
  simp [match_material, hn, find_material_by_alias, hfa, hfm]

/-- C4 amended witness: in `exDb4`, with customer 1, the first matching
alias row is the global one to `m2`, and the resolver returns `exM2`. -/
theorem C4_store_order_witness :
    match_material exDb4 ("смесь".data) none none (some 1) = some exM2 :=
  C4_store_order_decides exDb4 ("смесь".data) 1 ⟨"m2".data, "смесь".data, none⟩
    [⟨"m1".data, "смесь".data, some 1⟩] exM2 [] (by decide) (by decide) (by decide)

/-- C5: alias lookups are isolated across customers: an alias scoped to
customer `A` never satisfies a lookup by a different customer `B` — two
stores that agree outside the `A`-scoped alias rows give `B` identical
results, and when every alias for a text is `A`-scoped, `B`'s lookup is
empty. -/
theorem C5_customer_isolation :
    ∀ (d1 d2 : DB) (a : Str) (A B : Nat),
      A ≠ B → B ≠ 0 →
      d1.materials = d2.materials →
      d1.material_aliases.filter (fun x => decide (x.customer_id ≠ some A)) =
        d2.material_aliases.filter (fun x => decide (x.customer_id ≠ some A)) →
      find_material_by_alias d1 a (some B) = find_material_by_alias d2 a (some B) ∧
      ((∀ x ∈ d1.material_aliases, x.alias_name = a → x.customer_id = some A) →
        find_material_by_alias d1 a (some B) = []) := by
  intro d1 d2 a A B hAB hB hm hfilt
  have hscope : ∀ x : MaterialAlias,
      (x.alias_name = a && aliasScopeOk (some B) x) = true →
      decide (x.customer_id ≠ some A) = true := by
    intro x hx
    simp [aliasScopeOk, hB] at hx
    rcases hx.2 with h | h
    · simp [h]
      intro hA
      exact hAB hA.symm
    · simp [h]
  have key : ∀ l : List MaterialAlias,
      l.filter (fun x => x.alias_name = a && aliasScopeOk (some B) x) =
        (l.filter (fun x => decide (x.customer_id ≠ some A))).filter
          (fun x => x.alias_name = a && aliasScopeOk (some B) x) := by
    intro l
    rw [List.filter_filter]
    apply List.filter_congr
    intro x _
    cases hpx : (x.alias_name = a && aliasScopeOk (some B) x) with
    | false => simp [hpx]
    | true => simp [hpx, hscope x hpx]
  constructor
  · unfold find_material_by_alias
    rw [key d1.material_aliases, hfilt, ← key d2.material_aliases, hm]
  · intro hall
    unfold find_material_by_alias
    have hnil : d1.material_aliases.filter
        (fun x => x.alias_name = a && aliasScopeOk (some B) x) = [] := by
      rw [List.filter_eq_nil_iff]
      intro x hx hcontra
      simp at hcontra
      have hA := hall x hx hcontra.1
      rcases (by simpa [aliasScopeOk, hB] using hcontra.2 :
          x.customer_id = some B ∨ x.customer_id = none) with h | h
      · rw [hA] at h
        exact hAB (Option.some.inj h)
      · rw [hA] at h
        cases h
    rw [hnil]
    rfl

/-- C5 witness: removing the customer-1-scoped alias «щебень» does not
change what customer 2 sees, and customer 2's lookup of «щебень» in the
store holding only that customer-1 alias is empty. -/
theorem C5_customer_isolation_witness :
    find_material_by_alias exDb5A ("щебень".data) (some 2) =
      find_material_by_alias exDb5B ("щебень".data) (some 2) ∧
    find_material_by_alias exDb5A ("щебень".data) (some 2) = [] :=
  ⟨(C5_customer_isolation exDb5A exDb5B ("щебень".data) 1 2 (by decide) (by decide)
      (by decide) (by decide)).1,
   (C5_customer_isolation exDb5A exDb5B ("щебень".data) 1 2 (by decide) (by decide)
      (by decide) (by decide)).2 (by decide)⟩

/-- C6 counterexample: the header row [«Материал», «Единица измерения»,
«Цена материала, за единицу»] does not map to {name: col1, unit: col2,
price: col3}: the third header contains the substring «материал», so the
name-pattern test fires first and the assignment overwrites col1; no price
column is detected at all. -/
theorem C6_counterexample :
    ¬ (detect_columns exHeaders =
        ⟨some ("Материал".data), some ("Цена материала, за единицу".data),
         some ("Единица измерения".data), none⟩) := by decide

/-- C6 amended: each header column is assigned the first logical field in
the priority order name, price, unit, article whose pattern set matches
(at most one field per column), but a later matching column overwrites a
logical field already assigned to an earlier column; the example header
row maps to {name: col3, unit: col2} with no price and no article entry. -/
theorem C6_detection :
    detect_columns exHeaders =
      ⟨some ("Цена материала, за единицу".data), none,
       some ("Единица измерения".data), none⟩ ∧
    (∀ (cols : List Str) (col : Str),
      classifyColumn col = some ColField.nameF →
      (detect_columns (cols ++ [col])).name = some col) := by
  refine ⟨by decide, fun cols col h => ?_⟩
  unfold detect_columns
  rw [List.foldl_append]
  simp [assignColumn, h]

/-- C6 witness: appending the price-labelled header after «Материал»
overwrites the name assignment. -/
theorem C6_detection_witness :
    (detect_columns (["Материал".data] ++
        [("Цена материала, за единицу".data)])).name =
      some ("Цена материала, за единицу".data) :=
  C6_detection.2 ["Материал".data] ("Цена материала, за единицу".data) (by decide)

/-- C7 counterexample: in an empty store a row named «неизвестно» is a
lookup miss; the batch of that single row ends with an unmatched record
and the raw row in the unmatched list, but `errors = 1` — the loop counts
the miss as an error (line 126 of `price_importer.py`), where the claim
requires the error count to stay 0. -/
theorem C7_counterexample :
    match_material exDb7 ("неизвестно".data) none none none = none ∧
    (process_dataframe exDb7 exMapping7 [exRow7] 1 1 none
        ("2024-01-01".data)).errors = 1 ∧
    (process_dataframe exDb7 exMapping7 [exRow7] 1 1 none
        ("2024-01-01".data)).unmatched =
      [⟨some ("неизвестно".data), some 50, none, none⟩] ∧
    (process_dataframe exDb7 exMapping7 [exRow7] 1 1 none
        ("2024-01-01".data)).db.unmatched_imports =
      [⟨1, "неизвестно".data, some 50, none, none, "pending".data⟩] := by decide

/-- C7 amended: for every data row with a nonempty name that the resolver
fails to match, the orchestrator creates an unmatched-import record for
the session, appends the raw row to the returned unmatched list, and also
increments the batch's error counter for that row. -/
theorem C7_unmatched_row :
    ∀ (mapping : ColumnMapping) (source_id session_id : Nat)
      (cust : Option Nat) (today : Str) (st : ProcState) (row : Row)
      (d : RowData) (n : Str),
      extract_material_data row mapping = d →
      d.name = some n → n ≠ [] →
      match_material st.db n d.unit d.article cust = none →
      process_row mapping source_id session_id cust today st row =
        { st with
          errors := st.errors + 1
          unmatched := st.unmatched ++ [d]
          db := add_unmatched_import st.db session_id n d.price d.unit
            d.article } := by
  intro mapping sid seid cust today st row d n hd hn hne hmm
  unfold process_row
  rw [hd]
  simp [hn, hne, hmm]

/-- C7 amended witness: the single unmatched row of `exRow7` yields one
error, one unmatched entry and one unmatched-import record. -/
theorem C7_unmatched_row_witness :
    process_row exMapping7 1 1 none ("2024-01-01".data) ⟨0, 0, [], exDb7⟩
        exRow7 =
      { processed := 0, errors := 1,
        unmatched := [⟨some ("неизвестно".data), some 50, none, none⟩],
        db := add_unmatched_import exDb7 1 ("неизвестно".data) (some 50) none
          none } :=
  C7_unmatched_row exMapping7 1 1 none ("2024-01-01".data) ⟨0, 0, [], exDb7⟩
    exRow7 ⟨some ("неизвестно".data), some 50, none, none⟩ ("неизвестно".data)
    (by decide) (by decide) (by decide) (by decide)

/-- C9: the failing run — a matched row whose raw name «Товар Цемент»
differs from the canonical name «цемент» is processed, but the alias table
is unchanged afterwards: `_add_alias_if_not_exists` is a placeholder
(`pass`, lines 241-248 of `price_importer.py`), so the promised alias is
never present in the store. -/
theorem C9_alias_never_written :
    match_material exDb9 ("Товар Цемент".data) (some ("кг".data)) none none =
      some exM1 ∧
    ("Товар Цемент".data ≠ exM1.name_canonical) ∧
    (process_dataframe exDb9 exMapping8 [exRow9] 1 1 none
        ("2024-01-01".data)).processed = 1 ∧
    (process_dataframe exDb9 exMapping8 [exRow9] 1 1 none
        ("2024-01-01".data)).db.material_aliases = exDb9.material_aliases ∧
    exDb9.material_aliases = [] := by decide

/-- C8: row failures are isolated: an unparseable text in the price column
extracts to a null price rather than failing extraction; a matched row
whose price is null is caught and counted as one error, changing nothing
else; and the ten-row batch whose fifth row carries price «n/a» still
reports 9 processed and 1 error instead of aborting. -/
theorem C8_row_failure_isolation :
    (∀ (row : Row) (mapping : ColumnMapping) (col s : Str),
      mapping.price = some col →
      (row.find? (fun p => p.1 = col)).map Prod.snd =
        some (CellValue.str s) →
      parseIntChars s = none →
      (extract_material_data row mapping).price = none) ∧
    (∀ (mapping : ColumnMapping) (source_id session_id : Nat)
      (cust : Option Nat) (today : Str) (st : ProcState) (row : Row)
      (d : RowData) (n : Str) (m : Material),
      extract_material_data row mapping = d →
      d.name = some n → n ≠ [] →
      match_material st.db n d.unit d.article cust = some m →
      d.price = none →
      process_row mapping source_id session_id cust today st row =
        { st with errors := st.errors + 1 }) ∧
    ((process_dataframe exDb8 exMapping8 exRows8 1 1 none
        ("2024-01-01".data)).processed = 9 ∧
     (process_dataframe exDb8 exMapping8 exRows8 1 1 none
        ("2024-01-01".data)).errors = 1 ∧
     (process_dataframe exDb8 exMapping8 exRows8 1 1 none
        ("2024-01-01".data)).unmatched = []) := by
  refine ⟨?_, ?_, by decide⟩
  · intro row mapping col s hcol hcell hparse
    simp [extract_material_data, safe_get_numeric, hcol, hcell, hparse]
  · intro mapping sid seid cust today st row d n m hd hn hne hmm hp
    unfold process_row
    rw [hd]
    simp [hn, hne, hmm, hp]

/-- C8 witness: the bad fifth row alone, against `exDb8`, is matched but
counted as a single error and changes nothing else. -/
theorem C8_row_failure_witness :
    process_row exMapping8 1 1 none ("2024-01-01".data) ⟨0, 0, [], exDb8⟩
        (exRow8 (CellValue.str ("n/a".data))) =
      { processed := 0, errors := 1, unmatched := [], db := exDb8 } :=
  C8_row_failure_isolation.2.1 exMapping8 1 1 none ("2024-01-01".data)
    ⟨0, 0, [], exDb8⟩ (exRow8 (CellValue.str ("n/a".data)))
    ⟨some ("Цемент М500".data), none, some ("шт".data), none⟩
    ("Цемент М500".data) exM8 (by decide) (by decide) (by decide) (by decide)
    (by decide)

/-! ## Order facts used by the price-selection claim -/

/-- Two characters with equal codepoints are equal. -/
theorem charEqOfToNatEq {a b : Char} (h : a.toNat = b.toNat) : a = b :=
  Char.ext (UInt32.ext h)

/-- Lexicographic order is irreflexive. -/
theorem lexLtB_self (s : Str) : lexLtB s s = false := by
  induction s with
  | nil => rfl
  | cons a as ih => simp [lexLtB, charLt, ih]

/-- Lexicographic order is transitive. -/
theorem lexLtB_trans : ∀ {a b c : Str},
    lexLtB a b = true → lexLtB b c = true → lexLtB a c = true := by
  intro a
  induction a with
  | nil =>
    intro b c h1 h2
    cases b with
    | nil => simp [lexLtB] at h1
    | cons y ys =>
      cases c with
      | nil => simp [lexLtB] at h2
      | cons z zs => simp [lexLtB]
  | cons x xs ih =>
    intro b c h1 h2
    cases b with
    | nil => simp [lexLtB] at h1
    | cons y ys =>
      cases c with
      | nil => simp [lexLtB] at h2
      | cons z zs =>
        simp only [lexLtB, charLt, Bool.or_eq_true, Bool.and_eq_true,
          decide_eq_true_eq] at h1 h2 ⊢
        rcases h1 with h1 | ⟨hxy, h1⟩ <;> rcases h2 with h2 | ⟨hyz, h2⟩
        · exact Or.inl (Nat.lt_trans h1 h2)
        · subst hyz
          exact Or.inl h1
        · subst hxy
          exact Or.inl h2
        · subst hxy
          exact Or.inr ⟨hyz, ih h1 h2⟩

/-- Lexicographic order is total. -/
theorem lexLtB_total : ∀ (s t : Str),
    lexLtB s t = true ∨ s = t ∨ lexLtB t s = true := by
  intro s
  induction s with
  | nil =>
    intro t
    cases t with
    | nil => simp
    | cons y ys => simp [lexLtB]
  | cons x xs ih =>
    intro t
    cases t with
    | nil => simp [lexLtB]
    | cons y ys =>
      rcases Nat.lt_trichotomy x.toNat y.toNat with h | h | h
      · exact Or.inl (by simp [lexLtB, charLt, h])
      · have hxy : x = y := charEqOfToNatEq h
        subst hxy
        rcases ih ys with h2 | h2 | h2
        · exact Or.inl (by simp [lexLtB, charLt, h2])
        · exact Or.inr (Or.inl (by rw [h2]))
        · exact Or.inr (Or.inr (by simp [lexLtB, charLt, h2]))
      · exact Or.inr (Or.inr (by simp [lexLtB, charLt, h]))

/-- The two-level price ordering is irreflexive. -/
theorem betterPrice_self (p : Str) (a : JoinedPrice) : betterPrice p a a = false := by
  simp [betterPrice, lexLtB_self]

/-- The two-level price ordering is transitive. -/
theorem betterPrice_trans {p : Str} {a b c : JoinedPrice}
    (h1 : betterPrice p a b = true) (h2 : betterPrice p b c = true) :
    betterPrice p a c = true := by
  simp only [betterPrice, Bool.or_eq_true, Bool.and_eq_true,
    decide_eq_true_eq] at h1 h2 ⊢
  rcases h1 with h1 | ⟨e1, h1⟩ <;> rcases h2 with h2 | ⟨e2, h2⟩
  · exact Or.inl (Nat.lt_trans h1 h2)
  · exact Or.inl (e2 ▸ h1)
  · exact Or.inl (e1 ▸ h2)
  · exact Or.inr ⟨e1.trans e2, lexLtB_trans h2 h1⟩

/-- The complement of the two-level price ordering is transitive. -/
theorem betterPrice_negtrans {p : Str} {a b c : JoinedPrice}
    (h1 : betterPrice p a b = false) (h2 : betterPrice p b c = false) :
    betterPrice p a c = false := by
  simp only [betterPrice, Bool.or_eq_false_iff, Bool.and_eq_false_iff,
    decide_eq_false_iff_not] at h1 h2 ⊢
  have hr1 : ¬ sourceRank p a.ps_type < sourceRank p b.ps_type := h1.1
  have hr2 : ¬ sourceRank p b.ps_type < sourceRank p c.ps_type := h2.1
  refine ⟨by omega, ?_⟩
  rcases h1.2 with he1 | hd1
  · left
    omega
  · rcases h2.2 with he2 | hd2
    · left
      omega
    · by_cases he : sourceRank p a.ps_type = sourceRank p c.ps_type
      · right
        cases hlt : lexLtB c.row.price_date a.row.price_date with
        | false => rfl
        | true =>
          exfalso
          rcases lexLtB_total c.row.price_date b.row.price_date with h | h | h
          · exact absurd h (by simp [hd2])
          · rw [h] at hlt
            exact absurd hlt (by simp [hd1])
          · exact absurd (lexLtB_trans h hlt) (by simp [hd1])
      · exact Or.inl he

/-- Folding the selection step from an incumbent yields a row of the
incumbent-plus-candidates set that no element of that set strictly
precedes. -/
theorem pickBest_go (p : Str) :
    ∀ (l : List JoinedPrice) (b : JoinedPrice),
      ∃ r, List.foldl (pickStep p) (some b) l = some r ∧ r ∈ b :: l ∧
        ∀ x ∈ b :: l, betterPrice p x r = false := by
  intro l
  induction l with
  | nil =>
    intro b
    refine ⟨b, rfl, by simp, ?_⟩
    intro x hx
    rw [List.mem_singleton] at hx
    rw [hx]
    exact betterPrice_self p b
  | cons a as ih =>
    intro b
    by_cases h : betterPrice p a b = true
    · obtain ⟨r, hr, hmem, hmin⟩ := ih a
      refine ⟨r, by simpa [pickStep, h] using hr,
        List.mem_cons_of_mem b hmem, ?_⟩
      intro y hy
      rcases List.mem_cons.1 hy with hyb | hy2
      · rw [hyb]
        cases hbr : betterPrice p b r with
        | false => rfl
        | true =>
          have hxr := hmin a (List.mem_cons_self a as)
          exact absurd (betterPrice_trans h hbr) (by simp [hxr])
      · exact hmin y hy2
    · obtain ⟨r, hr, hmem, hmin⟩ := ih b
      have hfalse : betterPrice p a b = false := by
        cases hab : betterPrice p a b with
        | false => rfl
        | true => exact absurd hab h
      refine ⟨r, by simpa [pickStep, hfalse] using hr, ?_, ?_⟩
      · rcases List.mem_cons.1 hmem with hm | hm
        · rw [hm]
          exact List.mem_cons_self b (a :: as)
        · exact List.mem_cons_of_mem b (List.mem_cons_of_mem a hm)
      · intro y hy
        rcases List.mem_cons.1 hy with hyb | hy2
        · rw [hyb]
          exact hmin b (List.mem_cons_self b as)
        · rcases List.mem_cons.1 hy2 with hya | hy3
          · rw [hya]
            exact betterPrice_negtrans hfalse (hmin b (List.mem_cons_self b as))
          · exact hmin y (List.mem_cons_of_mem b hy3)

/-- `pickBest` returns `none` exactly on the empty candidate list. -/
theorem pickBest_eq_none (p : Str) (l : List JoinedPrice) :
    pickBest p l = none ↔ l = [] := by
  cases l with
  | nil => simp [pickBest]
  | cons x xs =>
    obtain ⟨r, hr, _, _⟩ := pickBest_go p xs x
    have hstep : pickBest p (x :: xs) = some r := by
      simpa [pickBest, pickStep] using hr
    simp [hstep]

/-- A row returned by `pickBest` is a candidate that no candidate strictly
precedes. -/
theorem pickBest_eq_some (p : Str) (l : List JoinedPrice) (r : JoinedPrice)
    (h : pickBest p l = some r) :
    r ∈ l ∧ ∀ x ∈ l, betterPrice p x r = false := by
  cases l with
  | nil => cases h
  | cons x xs =>
    obtain ⟨r2, hr2, hmem, hmin⟩ := pickBest_go p xs x
    have hstep : pickBest p (x :: xs) = some r2 := by
      simpa [pickBest, pickStep] using hr2
    rw [hstep] at h
    cases h
    exact ⟨hmem, hmin⟩

/-- The candidate set of the selection query is exactly the active price
rows of the material dated on or before the as-of date, joined with their
sources. -/
theorem mem_priceCandidates (db : DB) (mid asOf : Str) (j : JoinedPrice) :
    j ∈ priceCandidates db mid asOf ↔
      (j.row ∈ db.material_prices ∧ j.row.material_id = mid ∧
        j.row.is_active = true ∧ lexLeB j.row.price_date asOf = true ∧
        ∃ ps ∈ db.price_sources, ps.id = j.row.source_id ∧
          j.ps_type = ps.type_ ∧ j.source_customer_id = ps.customer_id) := by
  constructor
  · intro hj
    rcases List.mem_flatMap.1 hj with ⟨mp, hmp, hjin⟩
    by_cases hP : (mp.material_id = mid && mp.is_active &&
        lexLeB mp.price_date asOf) = true
    · rw [if_pos hP] at hjin
      rcases List.mem_map.1 hjin with ⟨ps, hps, hgps⟩
      rcases List.mem_filter.1 hps with ⟨hpsmem, hpscond⟩
      simp only [Bool.and_eq_true, decide_eq_true_eq] at hP hpscond
      subst hgps
      exact ⟨hmp, hP.1.1, hP.1.2, hP.2,
        ps, hpsmem, hpscond, rfl, rfl⟩
    · rw [if_neg hP] at hjin
      cases hjin
  · rintro ⟨hmem, hmid, hact, hdate, ps, hpsmem, hpsid, htype, hcust⟩
    apply List.mem_flatMap.2
    refine ⟨j.row, hmem, ?_⟩
    rw [if_pos (by simp [hmid, hact, hdate])]
    apply List.mem_map.2
    refine ⟨ps, List.mem_filter.2 ⟨hpsmem, by simp [hpsid, hact]⟩, ?_⟩
    cases j with
    | mk row pt sc =>
      simp only at htype hcust
      rw [htype, hcust]

/-- C1: price selection considers exactly the active price rows of the
material dated on or before the as-of date (which defaults to today),
returns a candidate that no other candidate precedes under the two-level
key — source-type rank first, `price_date` descending second — or `none`
on an empty candidate set, so a price dated after the as-of date is never
returned; on the spec's example store the invoice price dated 2024-03-01
(110) is selected as of 2024-03-15. -/
theorem C1_price_selection :
    (∀ (db : DB) (mid : Str) (cust : Option Nat) (today : Str),
      get_current_price db mid none cust today =
        get_current_price db mid (some today) cust today) ∧
    (∀ (db : DB) (mid asOf : Str) (cust : Option Nat) (today : Str),
      (get_current_price db mid (some asOf) cust today = none ↔
        priceCandidates db mid asOf = []) ∧
      (∀ j : JoinedPrice, j ∈ priceCandidates db mid asOf ↔
        (j.row ∈ db.material_prices ∧ j.row.material_id = mid ∧
          j.row.is_active = true ∧ lexLeB j.row.price_date asOf = true ∧
          ∃ ps ∈ db.price_sources, ps.id = j.row.source_id ∧
            j.ps_type = ps.type_ ∧ j.source_customer_id = ps.customer_id)) ∧
      (∀ r, get_current_price db mid (some asOf) cust today = some r →
        r ∈ priceCandidates db mid asOf ∧
        lexLeB r.row.price_date asOf = true ∧
        ∀ x ∈ priceCandidates db mid asOf,
          betterPrice (lookupPreferredType db cust) x r = false)) ∧
    get_current_price exDb1 ("m1".data) (some ("2024-03-15".data)) none
        ("2024-03-15".data) = some exJ1 := by
  refine ⟨fun db mid cust today => rfl, fun db mid asOf cust today => ?_,
    by decide⟩
  refine ⟨pickBest_eq_none _ _, mem_priceCandidates db mid asOf, ?_⟩
  intro r hr
  obtain ⟨hmem, hmin⟩ :=
    pickBest_eq_some (lookupPreferredType db cust) (priceCandidates db mid asOf) r hr
  have hchar := (mem_priceCandidates db mid asOf r).1 hmem
  exact ⟨hmem, hchar.2.2.2.1, hmin⟩

/-- C1 witness: the selected row of the example store is a candidate dated
on or before 2024-03-15 that no candidate precedes. -/
theorem C1_price_selection_witness :
    exJ1 ∈ priceCandidates exDb1 ("m1".data) ("2024-03-15".data) ∧
    lexLeB exJ1.row.price_date ("2024-03-15".data) = true ∧
    ∀ x ∈ priceCandidates exDb1 ("m1".data) ("2024-03-15".data),
      betterPrice (lookupPreferredType exDb1 none) x exJ1 = false :=
  (C1_price_selection.2.1 exDb1 ("m1".data) ("2024-03-15".data) none
    ("2024-03-15".data)).2.2 exJ1 (by decide)

/-! ## Normalization lemmas (claim C3) -/

/-- No lowercase image appears among the uppercase keys, and no pair member
is whitespace. -/
theorem lowerPairs_facts :
    ∀ p ∈ lowerPairs, lowerPairs.find? (fun q => q.1 = p.2) = none ∧
      pySpace p.1 = false ∧ pySpace p.2 = false := by decide

/-- Lowercasing is idempotent character by character. -/
theorem pyToLower_idem (c : Char) : pyToLower (pyToLower c) = pyToLower c := by
  cases h : lowerPairs.find? (fun p => p.1 = c) with
  | none =>
    have hc : pyToLower c = c := by simp [pyToLower, h]
    rw [hc, hc]
  | some pr =>
    have hmem := List.mem_of_find?_eq_some h
    have hfacts := lowerPairs_facts pr hmem
    have hc : pyToLower c = pr.2 := by simp [pyToLower, h]
    rw [hc]
    simp [pyToLower, hfacts.1]

/-- Lowercasing preserves whitespace-ness. -/
theorem pySpace_pyToLower (c : Char) : pySpace (pyToLower c) = pySpace c := by
  cases h : lowerPairs.find? (fun p => p.1 = c) with
  | none => simp [pyToLower, h]
  | some pr =>
    have hmem := List.mem_of_find?_eq_some h
    have hc : pr.1 = c := by simpa using List.find?_some h
    have hfacts := lowerPairs_facts pr hmem
    subst hc
    simp [pyToLower, h, hfacts.2.1, hfacts.2.2]

/-- Dropping leading whitespace leaves no leading whitespace. -/
theorem noLeadWs_dropWhile (l : Str) : noLeadWs (l.dropWhile pySpace) = true := by
  induction l with
  | nil => rfl
  | cons c rest ih =>
    rw [List.dropWhile_cons]
    by_cases h : pySpace c = true
    · simpa [h] using ih
    · have h2 : pySpace c = false := by
        cases hc : pySpace c with
        | false => rfl
        | true => exact absurd hc h
      simp [h2, noLeadWs]

/-- A string with no leading whitespace is fixed by dropping it. -/
theorem dropWhile_fix (l : Str) (h : noLeadWs l = true) :
    l.dropWhile pySpace = l := by
  cases l with
  | nil => rfl
  | cons a rest =>
    have : pySpace a = false := by simpa [noLeadWs] using h
    simp [List.dropWhile_cons, this]

/-- Removing trailing whitespace leaves no trailing whitespace. -/
theorem noTrailWs_dropTrailWs (l : Str) : noTrailWs (dropTrailWs l) = true := by
  induction l with
  | nil => rfl
  | cons c rest ih =>
    simp only [dropTrailWs]
    by_cases hb : (decide (dropTrailWs rest = []) && pySpace c) = true
    · rw [if_pos hb]
      rfl
    · rw [if_neg hb]
      cases hr : dropTrailWs rest with
      | nil =>
        have hc : pySpace c = false := by
          cases hcc : pySpace c with
          | false => rfl
          | true => exact absurd (by simp [hr, hcc]) hb
        simp [noTrailWs, hc]
      | cons d ds =>
        have := hr ▸ ih
        simpa [noTrailWs] using this

/-- Removing trailing whitespace keeps the head. -/
theorem noLeadWs_dropTrailWs (l : Str) (h : noLeadWs l = true) :
    noLeadWs (dropTrailWs l) = true := by
  cases l with
  | nil => rfl
  | cons c rest =>
    simp only [dropTrailWs]
    by_cases hb : (decide (dropTrailWs rest = []) && pySpace c) = true
    · rw [if_pos hb]
      rfl
    · rw [if_neg hb]
      simpa [noLeadWs] using h

/-- Characters of the trailing-whitespace-stripped string come from the
string. -/
theorem mem_dropTrailWs {c : Char} : ∀ {l : Str}, c ∈ dropTrailWs l → c ∈ l := by
  intro l
  induction l with
  | nil => exact fun h => h
  | cons a rest ih =>
    intro h
    simp only [dropTrailWs] at h
    by_cases hb : (decide (dropTrailWs rest = []) && pySpace a) = true
    · rw [if_pos hb] at h
      cases h
    · rw [if_neg hb] at h
      rcases List.mem_cons.1 h with hc | hc
      · rw [hc]
        exact List.mem_cons_self a rest
      · exact List.mem_cons_of_mem a (ih hc)

/-- A string with no trailing whitespace is fixed by removing it. -/
theorem dropTrailWs_fix : ∀ l : Str, noTrailWs l = true → dropTrailWs l = l := by
  intro l
  induction l with
  | nil => exact fun _ => rfl
  | cons c rest ih =>
    intro h
    cases rest with
    | nil =>
      have hc : pySpace c = false := by simpa [noTrailWs] using h
      simp [dropTrailWs, hc]
    | cons d ds =>
      have h2 : noTrailWs (d :: ds) = true := by simpa [noTrailWs] using h
      have hrec := ih h2
      conv_lhs => rw [dropTrailWs]
      rw [hrec]
      simp

/-- Collapsing a nonempty string yields a string headed by the (possibly
space-replaced) first character. -/
theorem collapseWs_cons (b : Char) (rs : Str) :
    ∃ t, collapseWs (b :: rs) = (if pySpace b then ' ' else b) :: t := by
  induction rs generalizing b with
  | nil =>
    refine ⟨[], ?_⟩
    cases h : pySpace b with
    | false => simp [collapseWs, h]
    | true => simp [collapseWs, h]
  | cons b2 rs2 ih =>
    by_cases h : (pySpace b && pySpace b2) = true
    · obtain ⟨t, ht⟩ := ih b2
      refine ⟨t, ?_⟩
      rw [collapseWs, if_pos h, ht]
      have hb : pySpace b = true := (Bool.and_eq_true _ _ ▸ h).1
      have hb2 : pySpace b2 = true := (Bool.and_eq_true _ _ ▸ h).2
      rw [if_pos hb, if_pos hb2]
    · exact ⟨collapseWs (b2 :: rs2), by rw [collapseWs, if_neg h]⟩

/-- Collapsing keeps a non-whitespace head. -/
theorem noLeadWs_collapseWs (l : Str) (h : noLeadWs l = true) :
    noLeadWs (collapseWs l) = true := by
  cases l with
  | nil => rfl
  | cons b rs =>
    obtain ⟨t, ht⟩ := collapseWs_cons b rs
    have hb : pySpace b = false := by simpa [noLeadWs] using h
    rw [ht, if_neg (by simp [hb])]
    simpa [noLeadWs] using hb

/-- Collapsing keeps a non-whitespace last character. -/
theorem noTrailWs_collapseWs : ∀ l : Str, noTrailWs l = true →
    noTrailWs (collapseWs l) = true := by
  intro l
  induction l with
  | nil => exact fun _ => rfl
  | cons a rest ih =>
    intro h
    cases rest with
    | nil =>
      have ha : pySpace a = false := by simpa [noTrailWs] using h
      simp [collapseWs, ha, noTrailWs]
    | cons b rs =>
      have h2 : noTrailWs (b :: rs) = true := by simpa [noTrailWs] using h
      have hrec := ih h2
      by_cases hab : (pySpace a && pySpace b) = true
      · rw [collapseWs, if_pos hab]
        exact hrec
      · rw [collapseWs, if_neg hab]
        obtain ⟨t, ht⟩ := collapseWs_cons b rs
        rw [ht] at hrec ⊢
        simpa [noTrailWs] using hrec

/-- Collapsing leaves no two adjacent whitespace characters. -/
theorem noDoubleWs_collapseWs : ∀ l : Str, noDoubleWs (collapseWs l) = true := by
  intro l
  induction l with
  | nil => rfl
  | cons a rest ih =>
    cases rest with
    | nil =>
      cases h : pySpace a with
      | false => simp [collapseWs, h, noDoubleWs]
      | true => simp [collapseWs, h, noDoubleWs]
    | cons b rs =>
      by_cases hab : (pySpace a && pySpace b) = true
      · rw [collapseWs, if_pos hab]
        exact ih
      · rw [collapseWs, if_neg hab]
        obtain ⟨t, ht⟩ := collapseWs_cons b rs
        rw [ht] at ih ⊢
        have hx : pySpace (if pySpace a then ' ' else a) = pySpace a := by
          cases h : pySpace a with
          | false => simp [h]
          | true => simp [h, pySpace]
        have hy : pySpace (if pySpace b then ' ' else b) = pySpace b := by
          cases h : pySpace b with
          | false => simp [h]
          | true => simp [h, pySpace]
        have hpair : (pySpace (if pySpace a then ' ' else a) &&
            pySpace (if pySpace b then ' ' else b)) = false := by
          rw [hx, hy]
          cases h1 : pySpace a with
          | false => rfl
          | true =>
            cases h2 : pySpace b with
            | false => rfl
            | true => exact absurd (by simp [h1, h2]) hab
        simp [noDoubleWs, hpair, ih]

/-- Every character of a collapsed string is a non-whitespace character of
the original or a space. -/
theorem mem_collapseWs {c : Char} : ∀ {l : Str},
    c ∈ collapseWs l → (c ∈ l ∧ pySpace c = false) ∨ c = ' ' := by
  intro l
  induction l with
  | nil => exact fun h => absurd h (by simp [collapseWs])
  | cons a rest ih =>
    intro h
    cases rest with
    | nil =>
      cases ha : pySpace a with
      | true =>
        rw [collapseWs, if_pos (by simp [ha])] at h
        exact Or.inr (by simpa using h)
      | false =>
        rw [collapseWs, if_neg (by simp [ha])] at h
        have : c = a := by simpa using h
        exact Or.inl ⟨by simp [this], this ▸ ha⟩
    | cons b rs =>
      by_cases hab : (pySpace a && pySpace b) = true
      · rw [collapseWs, if_pos hab] at h
        rcases ih h with ⟨hm, hw⟩ | hsp
        · exact Or.inl ⟨List.mem_cons_of_mem a hm, hw⟩
        · exact Or.inr hsp
      · rw [collapseWs, if_neg hab] at h
        rcases List.mem_cons.1 h with hc | hc
        · cases ha : pySpace a with
          | true =>
            rw [ha] at hc
            exact Or.inr (by simpa using hc)
          | false =>
            rw [ha] at hc
            simp at hc
            exact Or.inl ⟨by simp [hc], hc ▸ ha⟩
        · rcases ih hc with ⟨hm, hw⟩ | hsp
          · exact Or.inl ⟨List.mem_cons_of_mem a hm, hw⟩
          · exact Or.inr hsp

/-- A string whose whitespace is single spaces only is fixed by
collapsing. -/
theorem collapseWs_fix : ∀ l : Str,
    (∀ c ∈ l, pySpace c = true → c = ' ') → noDoubleWs l = true →
    collapseWs l = l := by
  intro l
  induction l with
  | nil => exact fun _ _ => rfl
  | cons a rest ih =>
    intro h1 h2
    cases rest with
    | nil =>
      cases ha : pySpace a with
      | false => simp [collapseWs, ha]
      | true =>
        have := h1 a (by simp) ha
        rw [collapseWs, if_pos (by simp [ha]), this]
    | cons b rs =>
      have h2' : (!(pySpace a && pySpace b) && noDoubleWs (b :: rs)) = true := h2
      have hpair : (pySpace a && pySpace b) = false := by
        have hx := (Bool.and_eq_true _ _ ▸ h2').1
        cases hq : (pySpace a && pySpace b) with
        | false => rfl
        | true =>
          rw [hq] at hx
          exact absurd hx (by simp)
      have hrec := ih (fun c hc hw => h1 c (List.mem_cons_of_mem a hc) hw)
        ((Bool.and_eq_true _ _ ▸ h2').2)
      rw [collapseWs, if_neg (by simp [hpair]), hrec]
      cases ha : pySpace a with
      | false => rw [if_neg (by simp [ha])]
      | true => rw [if_pos (by simp [ha]), h1 a (by simp) ha]

/-- The tail of a string with non-whitespace last character keeps it. -/
theorem noTrailWs_tail {a : Char} {rest : Str}
    (h : noTrailWs (a :: rest) = true) : noTrailWs rest = true := by
  cases rest with
  | nil => rfl
  | cons b rs => simpa [noTrailWs] using h

/-- The tail inherits the no-adjacent-whitespace property. -/
theorem noDoubleWs_tail {a : Char} {rest : Str}
    (h : noDoubleWs (a :: rest) = true) : noDoubleWs rest = true := by
  cases rest with
  | nil => rfl
  | cons b rs =>
    have h' : (!(pySpace a && pySpace b) && noDoubleWs (b :: rs)) = true := h
    exact (Bool.and_eq_true _ _ ▸ h').2

/-- Dropping a prefix keeps a non-whitespace last character. -/
theorem noTrailWs_drop : ∀ (n : Nat) (l : Str), noTrailWs l = true →
    noTrailWs (l.drop n) = true := by
  intro n
  induction n with
  | zero => exact fun l h => h
  | succ k ih =>
    intro l h
    cases l with
    | nil => rfl
    | cons a rest =>
      rw [List.drop_succ_cons]
      exact ih rest (noTrailWs_tail h)

/-- Dropping leading whitespace keeps a non-whitespace last character. -/
theorem noTrailWs_dropWhileWs : ∀ l : Str, noTrailWs l = true →
    noTrailWs (l.dropWhile pySpace) = true := by
  intro l
  induction l with
  | nil => exact fun _ => rfl
  | cons a rest ih =>
    intro h
    rw [List.dropWhile_cons]
    by_cases ha : pySpace a = true
    · rw [if_pos ha]
      exact ih (noTrailWs_tail h)
    · rw [if_neg ha]
      exact h

/-- Dropping a prefix keeps whitespace characters non-adjacent. -/
theorem noDoubleWs_drop : ∀ (n : Nat) (l : Str), noDoubleWs l = true →
    noDoubleWs (l.drop n) = true := by
  intro n
  induction n with
  | zero => exact fun l h => h
  | succ k ih =>
    intro l h
    cases l with
    | nil => rfl
    | cons a rest =>
      rw [List.drop_succ_cons]
      exact ih rest (noDoubleWs_tail h)

/-- Dropping leading whitespace keeps whitespace characters non-adjacent. -/
theorem noDoubleWs_dropWhileWs : ∀ l : Str, noDoubleWs l = true →
    noDoubleWs (l.dropWhile pySpace) = true := by
  intro l
  induction l with
  | nil => exact fun _ => rfl
  | cons a rest ih =>
    intro h
    rw [List.dropWhile_cons]
    by_cases ha : pySpace a = true
    · rw [if_pos ha]
      exact ih (noDoubleWs_tail h)
    · rw [if_neg ha]
      exact h

/-- Taking a prefix keeps a non-whitespace head. -/
theorem noLeadWs_take (n : Nat) (l : Str) (h : noLeadWs l = true) :
    noLeadWs (l.take n) = true := by
  cases n with
  | zero => rfl
  | succ k =>
    cases l with
    | nil => rfl
    | cons a rest =>
      rw [List.take_succ_cons]
      simpa [noLeadWs] using h

/-- Taking a prefix keeps whitespace characters non-adjacent. -/
theorem noDoubleWs_take : ∀ (n : Nat) (l : Str), noDoubleWs l = true →
    noDoubleWs (l.take n) = true := by
  intro n
  induction n with
  | zero => exact fun l _ => rfl
  | succ k ih =>
    intro l h
    cases l with
    | nil => rfl
    | cons a rest =>
      rw [List.take_succ_cons]
      cases rest with
      | nil =>
        rw [List.take_nil]
        rfl
      | cons b rs =>
        cases k with
        | zero => rfl
        | succ k2 =>
          have h' : (!(pySpace a && pySpace b) && noDoubleWs (b :: rs)) = true := h
          have h1 := (Bool.and_eq_true _ _ ▸ h').1
          have hrec := ih (b :: rs) ((Bool.and_eq_true _ _ ▸ h').2)
          rw [List.take_succ_cons] at hrec ⊢
          show (!(pySpace a && pySpace b) && noDoubleWs (b :: List.take k2 rs)) = true
          exact (Bool.and_eq_true _ _).symm ▸ (⟨h1, hrec⟩ :
            (!(pySpace a && pySpace b)) = true ∧ noDoubleWs (b :: List.take k2 rs) = true)

/-- Removing trailing whitespace keeps whitespace characters non-adjacent. -/
theorem noDoubleWs_dropTrailWs : ∀ l : Str, noDoubleWs l = true →
    noDoubleWs (dropTrailWs l) = true := by
  intro l
  induction l with
  | nil => exact fun _ => rfl
  | cons a rest ih =>
    intro h
    have hrec := ih (noDoubleWs_tail h)
    rw [dropTrailWs]
    by_cases hb : (decide (dropTrailWs rest = []) && pySpace a) = true
    · rw [if_pos hb]
      rfl
    · rw [if_neg hb]
      cases hr : dropTrailWs rest with
      | nil => rfl
      | cons d ds =>
        cases rest with
        | nil => cases hr
        | cons b rs =>
          have hd : b = d := by
            rw [dropTrailWs] at hr
            by_cases hb2 : (decide (dropTrailWs rs = []) && pySpace b) = true
            · rw [if_pos hb2] at hr
              cases hr
            · rw [if_neg hb2] at hr
              exact (List.cons.inj hr).1
          subst hd
          have h' : (!(pySpace a && pySpace b) && noDoubleWs (b :: rs)) = true := h
          have h1 := (Bool.and_eq_true _ _ ▸ h').1
          rw [hr] at hrec
          show (!(pySpace a && pySpace b) && noDoubleWs (b :: ds)) = true
          exact (Bool.and_eq_true _ _).symm ▸ (⟨h1, hrec⟩ :
            (!(pySpace a && pySpace b)) = true ∧ noDoubleWs (b :: ds) = true)

/-- Lowercasing keeps a non-whitespace head. -/
theorem noLeadWs_map_lower (l : Str) (h : noLeadWs l = true) :
    noLeadWs (l.map pyToLower) = true := by
  cases l with
  | nil => rfl
  | cons c rest => simpa [noLeadWs, pySpace_pyToLower] using h

/-- Lowercasing keeps a non-whitespace last character. -/
theorem noTrailWs_map_lower : ∀ l : Str, noTrailWs l = true →
    noTrailWs (l.map pyToLower) = true := by
  intro l
  induction l with
  | nil => exact fun _ => rfl
  | cons c rest ih =>
    intro h
    cases rest with
    | nil => simpa [noTrailWs, pySpace_pyToLower] using h
    | cons d ds =>
      have := ih (by simpa [noTrailWs] using h)
      simpa [noTrailWs] using this

/-- A pointwise-fixed map is the identity. -/
theorem mapFix (f : Char → Char) : ∀ l : Str, (∀ c ∈ l, f c = c) →
    l.map f = l := by
  intro l h
  induction l with
  | nil => rfl
  | cons a rest ih =>
    rw [List.map_cons, h a (List.mem_cons_self a rest),
      ih (fun c hc => h c (List.mem_cons_of_mem a hc))]

/-- Removing a generic-noun head keeps a non-whitespace head. -/
theorem noLeadWs_stripHead (l : Str) (h : noLeadWs l = true) :
    noLeadWs (stripHead l) = true := by
  cases hf : genericHeads.find? (fun p => decide (l.take p.length = p)) with
  | none =>
    simp only [stripHead, hf]
    exact h
  | some p =>
    simp only [stripHead, hf]
    exact noLeadWs_dropWhile _

/-- Removing a generic-noun head keeps a non-whitespace last character. -/
theorem noTrailWs_stripHead (l : Str) (h : noTrailWs l = true) :
    noTrailWs (stripHead l) = true := by
  cases hf : genericHeads.find? (fun p => decide (l.take p.length = p)) with
  | none =>
    simp only [stripHead, hf]
    exact h
  | some p =>
    simp only [stripHead, hf]
    exact noTrailWs_dropWhileWs _ (noTrailWs_drop _ _ h)

/-- Removing a generic-noun head keeps whitespace characters
non-adjacent. -/
theorem noDoubleWs_stripHead (l : Str) (h : noDoubleWs l = true) :
    noDoubleWs (stripHead l) = true := by
  cases hf : genericHeads.find? (fun p => decide (l.take p.length = p)) with
  | none =>
    simp only [stripHead, hf]
    exact h
  | some p =>
    simp only [stripHead, hf]
    exact noDoubleWs_dropWhileWs _ (noDoubleWs_drop _ _ h)

/-- Characters survive head-stripping only if present initially. -/
theorem mem_stripHead {c : Char} {l : Str} (h : c ∈ stripHead l) : c ∈ l := by
  cases hf : genericHeads.find? (fun p => decide (l.take p.length = p)) with
  | none =>
    simp only [stripHead, hf] at h
    exact h
  | some p =>
    simp only [stripHead, hf] at h
    exact List.drop_subset _ _ ((List.dropWhile_sublist _).subset h)

/-- Removing a unit-like tail keeps a non-whitespace head. -/
theorem noLeadWs_stripTail (l : Str) (h : noLeadWs l = true) :
    noLeadWs (stripTail l) = true := by
  cases hf : unitTails.find? (fun w => decide (l.drop (l.length - w.length) = w)) with
  | none =>
    simp only [stripTail, hf]
    exact h
  | some w =>
    simp only [stripTail, hf]
    exact noLeadWs_dropTrailWs _ (noLeadWs_take _ _ h)

/-- Removing a unit-like tail keeps a non-whitespace last character. -/
theorem noTrailWs_stripTail (l : Str) (h : noTrailWs l = true) :
    noTrailWs (stripTail l) = true := by
  cases hf : unitTails.find? (fun w => decide (l.drop (l.length - w.length) = w)) with
  | none =>
    simp only [stripTail, hf]
    exact h
  | some w =>
    simp only [stripTail, hf]
    exact noTrailWs_dropTrailWs _

/-- Removing a unit-like tail keeps whitespace characters non-adjacent. -/
theorem noDoubleWs_stripTail (l : Str) (h : noDoubleWs l = true) :
    noDoubleWs (stripTail l) = true := by
  cases hf : unitTails.find? (fun w => decide (l.drop (l.length - w.length) = w)) with
  | none =>
    simp only [stripTail, hf]
    exact h
  | some w =>
    simp only [stripTail, hf]
    exact noDoubleWs_dropTrailWs _ (noDoubleWs_take _ _ h)

/-- Characters survive tail-stripping only if present initially. -/
theorem mem_stripTail {c : Char} {l : Str} (h : c ∈ stripTail l) : c ∈ l := by
  cases hf : unitTails.find? (fun w => decide (l.drop (l.length - w.length) = w)) with
  | none =>
    simp only [stripTail, hf] at h
    exact h
  | some w =>
    simp only [stripTail, hf] at h
    exact List.take_subset _ _ (mem_dropTrailWs h)

/-- Every normalized name is trimmed, lowercase, and has its whitespace
collapsed to single spaces. -/
theorem clean_shape (s : Str) :
    noLeadWs (clean_material_name s) = true ∧
    noTrailWs (clean_material_name s) = true ∧
    noDoubleWs (clean_material_name s) = true ∧
    (∀ c ∈ clean_material_name s, pySpace c = true → c = ' ') ∧
    (∀ c ∈ clean_material_name s, pyToLower c = c) := by
  by_cases hs : s = []
  · rw [clean_material_name, if_pos hs]
    exact ⟨rfl, rfl, rfl, by simp, by simp⟩
  · rw [clean_material_name, if_neg hs]
    have hsLead : noLeadWs (stripStr s) = true := by
      rw [stripStr]
      exact noLeadWs_dropTrailWs _ (noLeadWs_dropWhile _)
    have hsTrail : noTrailWs (stripStr s) = true := by
      rw [stripStr]
      exact noTrailWs_dropTrailWs _
    have huLead : noLeadWs ((stripStr s).map pyToLower) = true :=
      noLeadWs_map_lower _ hsLead
    have huTrail : noTrailWs ((stripStr s).map pyToLower) = true :=
      noTrailWs_map_lower _ hsTrail
    have hvLead := noLeadWs_collapseWs _ huLead
    have hvTrail := noTrailWs_collapseWs _ huTrail
    have hvDouble := noDoubleWs_collapseWs ((stripStr s).map pyToLower)
    refine ⟨noLeadWs_stripTail _ (noLeadWs_stripHead _ hvLead),
      noTrailWs_stripTail _ (noTrailWs_stripHead _ hvTrail),
      noDoubleWs_stripTail _ (noDoubleWs_stripHead _ hvDouble), ?_, ?_⟩
    · intro c hc hw
      rcases mem_collapseWs (mem_stripHead (mem_stripTail hc)) with ⟨_, hnw⟩ | hsp
      · rw [hw] at hnw
        cases hnw
      · exact hsp
    · intro c hc
      rcases mem_collapseWs (mem_stripHead (mem_stripTail hc)) with ⟨hm, _⟩ | hsp
      · rcases List.mem_map.1 hm with ⟨c0, _, hc0⟩
        rw [← hc0]
        exact pyToLower_idem c0
      · rw [hsp]
        decide

/-- C3 counterexample: one pass over «кг кг» yields «кг» (the suffix regex
removes the final «кг» and the space before it), and a second pass strips
the remaining «кг» to the empty string — normalization is not
idempotent. -/
theorem C3_counterexample :
    ¬ (clean_material_name (clean_material_name ("кг кг".data)) =
        clean_material_name ("кг кг".data)) := by decide

/-- C3 amended: normalization is idempotent exactly away from the stripped
tokens — for every input whose normal form no longer starts with a
generic-noun prefix token and no longer ends with a unit-like suffix token
(the two anchored regexes fix it), a second pass returns it unchanged; a
normal form that still carries such a token at its head or tail (e.g. the
one of «кг кг») is stripped further by a second pass. -/
theorem C3_idempotent_away_from_tokens :
    ∀ s : Str,
      stripHead (clean_material_name s) = clean_material_name s →
      stripTail (clean_material_name s) = clean_material_name s →
      clean_material_name (clean_material_name s) = clean_material_name s := by
  intro s h1 h2
  obtain ⟨hlead, htrail, hdouble, hws, hlower⟩ := clean_shape s
  by_cases hnil : clean_material_name s = []
  · rw [hnil]
    rfl
  · have hstrip : stripStr (clean_material_name s) = clean_material_name s := by
      rw [stripStr, dropWhile_fix _ hlead, dropTrailWs_fix _ htrail]
    have hmap : (clean_material_name s).map pyToLower = clean_material_name s :=
      mapFix _ _ hlower
    have hcol : collapseWs (clean_material_name s) = clean_material_name s :=
      collapseWs_fix _ hws hdouble
    rw [clean_material_name, if_neg hnil, hstrip, hmap, hcol, h1, h2]

/-- C3 amended witness: the normal form of «  Материал   Цемент М500  » is
«цемент м500», which carries no strippable token, and a second pass leaves
it unchanged. -/
theorem C3_idempotent_witness :
    stripHead (clean_material_name ("  Материал   Цемент М500  ".data)) =
      clean_material_name ("  Материал   Цемент М500  ".data) ∧
    stripTail (clean_material_name ("  Материал   Цемент М500  ".data)) =
      clean_material_name ("  Материал   Цемент М500  ".data) ∧
    clean_material_name
        (clean_material_name ("  Материал   Цемент М500  ".data)) =
      clean_material_name ("  Материал   Цемент М500  ".data) :=
  ⟨by decide, by decide,
   C3_idempotent_away_from_tokens ("  Материал   Цемент М500  ".data)
     (by decide) (by decide)⟩
